import Mathlib

/-!
Shallow embedding of the vyantra stack virtual machine (src/lib.rs).

Modelling conventions:
* Rust `i32` values are modelled as `Int`; the arithmetic instructions apply an
  explicit range check (`i32chk`) reproducing the debug-profile panic on
  overflow of `arg_1 + arg_2`, `arg_1 - arg_2`, `arg_1 * arg_2`, `arg_1 / arg_2`.
* Rust `usize` index arithmetic is modelled on `Nat` with the debug-profile
  checked subtraction: an underflowing `a - b` is a panic, modelled as the
  error `VmErr.subOverflow` (it is not one of the `Result`-carried errors).
* Every fatal outcome (a `Result` error that `run` turns into a `panic!`, a
  failed `assert!`, a checked-arithmetic panic, division by zero, fetching past
  the end of the program) is a constructor of `VmErr`; `VmErr.stack` and
  `VmErr.path` wrap the source's `StackError` and `PathError` enums.
* `isize` range limits on `Path::STK` offsets and `JMP` offsets are not
  modelled (offsets are unbounded `Int`); no claim depends on behaviour at
  `isize::MIN`/`isize::MAX`.
* The `Vec<i32>` stack memory is a `List Int` with the same layout: index 0 is
  the bottom, the last element is the top of the stack.
* The `HashMap<Reg, i32>` register file is a function `Reg → Option Int`, so
  that the missing-key branches (`PathError::RegErr`) remain representable.
-/

namespace Vyantra

/-- Fixed stack size (`STACK_SIZE` in src/lib.rs). -/
def STACK_SIZE : Nat := 1024

/-- Six general purpose registers (`Reg` in src/lib.rs). -/
inductive Reg
  | A | B | C | D | E | F
deriving DecidableEq, Repr

/-- A path is either a register or a stack pointer offset (`Path` in src/lib.rs). -/
inductive Path
  | REG (r : Reg)
  | STK (i : Int)
deriving DecidableEq, Repr

/-- The instruction set (`Inst` in src/lib.rs). -/
inductive Inst
  | PSH (v : Int)
  | POP
  | ADD
  | SUB
  | MUL
  | DIV
  | SET (r : Reg) (v : Int)
  | CPY (dst src : Path)
  | JMP (offset : Int)
  | HLT
deriving DecidableEq, Repr

/-- `StackError` in src/lib.rs: `PushErr` is the stack-overflow condition,
`PopErr` the stack-underflow condition. -/
inductive StackError
  | PushErr
  | PopErr
deriving DecidableEq, Repr

/-- `PathError` in src/lib.rs: `StackErr` is the address-error condition
(resolved stack location outside the memory vector), `RegErr` the
invalid-register condition. -/
inductive PathError
  | StackErr
  | RegErr
deriving DecidableEq, Repr

/-- Every fatal condition of the machine. `stack` and `path` wrap the
`Result`-carried error enums of the source; the remaining constructors model
`panic!`s: divide by zero, fetch past the end of the program, a failed
`assert!`, and the debug-profile checked-arithmetic panics. -/
inductive VmErr
  | stack (e : StackError)
  | path (e : PathError)
  | divideByZero
  | illegalInstruction
  | assertFailed
  | subOverflow
  | arithOverflow
deriving DecidableEq, Repr

/-- Which fatal conditions carry an error of the spec's error taxonomy
(StackOverflow, StackUnderflow, AddressError, DivideByZero,
IllegalInstruction); the panic-style aborts do not. -/
def VmErr.inSpecTaxonomy : VmErr → Bool
  | .stack _ => true
  | .path _ => true
  | .divideByZero => true
  | .illegalInstruction => true
  | _ => false

/-- The bounded stack (`Stack` in src/lib.rs): a memory vector and an `isize`
stack pointer. The last list element is the top of the stack. -/
structure Stack where
  memory : List Int
  sp : Int
deriving DecidableEq, Repr

deriving instance DecidableEq for Except

/-- `Stack::new`: empty memory, stack pointer `-1`. -/
def Stack.new : Stack := { memory := [], sp := -1 }

/-- The physical index resolved from a relative stack offset: `sp - idx` for
`idx >= 0`, `sp + |idx|` for `idx < 0`, exactly the `usize` expressions of
`Stack::get_at_idx` / `Stack::set_at_idx` (the underflow of the subtraction is
checked separately by the callers). -/
def stkPhys (sp idx : Int) : Nat :=
  if 0 ≤ idx then sp.toNat - idx.toNat else sp.toNat + (-idx).toNat

/-- `Stack::get_at_idx`: asserts a consistent stack pointer, resolves the
relative offset, and reads the memory vector. For `idx >= 0` the `usize`
subtraction `sp - idx` panics (debug profile) when `idx > sp`. -/
def Stack.get_at_idx (s : Stack) (idx : Int) : Except VmErr Int :=
  if 0 ≤ s.sp ∧ s.sp.toNat < s.memory.length then
    if 0 ≤ idx ∧ s.sp.toNat < idx.toNat then .error .subOverflow
    else
      match s.memory[stkPhys s.sp idx]? with
      | some v => .ok v
      | none => .error (.path .StackErr)
  else .error .assertFailed

/-- `Stack::set_at_idx`: same addressing as `get_at_idx`, overwriting in place
on success. -/
def Stack.set_at_idx (s : Stack) (idx : Int) (val : Int) : Except VmErr Stack :=
  if 0 ≤ s.sp ∧ s.sp.toNat < s.memory.length then
    if 0 ≤ idx ∧ s.sp.toNat < idx.toNat then .error .subOverflow
    else if stkPhys s.sp idx < s.memory.length then
      .ok { s with memory := s.memory.set (stkPhys s.sp idx) val }
    else .error (.path .StackErr)
  else .error .assertFailed

/-- `Stack::pop`: removes and returns the last element, decrementing `sp`. -/
def Stack.pop (s : Stack) : Except VmErr (Int × Stack) :=
  if h : 0 < s.memory.length then
    .ok (s.memory.getLast (List.length_pos.mp h),
         { memory := s.memory.dropLast, sp := s.sp - 1 })
  else .error (.stack .PopErr)

/-- `Stack::push`: appends the value if the length is below `STACK_SIZE`,
incrementing `sp`. -/
def Stack.push (s : Stack) (value : Int) : Except VmErr Stack :=
  if s.memory.length < STACK_SIZE then
    .ok { memory := s.memory ++ [value], sp := s.sp + 1 }
  else .error (.stack .PushErr)

/-- Iterated `Stack::push`, used to state the capacity property. -/
def Stack.pushAll (s : Stack) : List Int → Except VmErr Stack
  | [] => .ok s
  | v :: rest =>
    match s.push v with
    | .ok s' => s'.pushAll rest
    | .error e => .error e

/-- The stack-pointer/length consistency invariant: `sp = -1` when empty,
`sp = length - 1` when non-empty. -/
def Stack.inv (s : Stack) : Prop :=
  (s.memory = [] → s.sp = -1) ∧
  (s.memory ≠ [] → s.sp = (s.memory.length : Int) - 1)

instance (s : Stack) : Decidable s.inv := by
  unfold Stack.inv
  infer_instance

/-- The `i32` range. -/
def i32range (x : Int) : Prop := -(2 ^ 31) ≤ x ∧ x < 2 ^ 31

instance (x : Int) : Decidable (i32range x) := by
  unfold i32range
  infer_instance

/-- Debug-profile `i32` arithmetic: the mathematical result if it is
representable, otherwise the overflow panic. -/
def i32chk (x : Int) : Except VmErr Int :=
  if i32range x then .ok x else .error .arithOverflow

example : Stack.new.pop = .error (.stack .PopErr) := by decide
example : Stack.new.push 5 = .ok { memory := [5], sp := 0 } := by decide
example : (Stack.mk [7] 0).get_at_idx 0 = .ok 7 := by decide
example : (Stack.mk [7] 0).get_at_idx 1 = .error .subOverflow := by decide
example : (Stack.mk [7] 0).get_at_idx (-1) = .error (.path .StackErr) := by decide
example : (Stack.mk [7, 9] 1).get_at_idx 1 = .ok 7 := by decide
example : (Stack.mk [7, 9] 1).set_at_idx 0 3 = .ok (Stack.mk [7, 3] 1) := by decide
example : Stack.new.get_at_idx 0 = .error .assertFailed := by decide

/-- The machine (`Machine` in src/lib.rs): program, instruction pointer,
stack, and register file. -/
structure Machine where
  program : List Inst
  ip : Nat
  stack : Stack
  registers : Reg → Option Int

/-- The register file built by `Machine::new`: all six registers present,
mapped to 0. -/
def initRegisters : Reg → Option Int := fun _ => some 0

/-- `Machine::new` (the `assert!(program.len() > 0)` is reflected in
`Machine.Reachable.init`, not here). -/
def Machine.new (program : List Inst) : Machine :=
  { program := program, ip := 0, stack := Stack.new, registers := initRegisters }

/-- `Machine::get_reg_value`: a `HashMap` lookup with an error branch for a
missing key. -/
def Machine.get_reg_value (m : Machine) (reg : Reg) : Except VmErr Int :=
  match m.registers reg with
  | some v => .ok v
  | none => .error (.path .RegErr)

/-- `Machine::set_reg_value`: overwrites the entry if the key is present,
errs otherwise. -/
def Machine.set_reg_value (m : Machine) (reg : Reg) (value : Int) :
    Except VmErr Machine :=
  if (m.registers reg).isSome then
    .ok { m with registers := fun r => if r = reg then some value else m.registers r }
  else .error (.path .RegErr)

/-- `Machine::get_from_path`. -/
def Machine.get_from_path (m : Machine) (path : Path) : Except VmErr Int :=
  match path with
  | .REG reg => m.get_reg_value reg
  | .STK rel_idx => m.stack.get_at_idx rel_idx

/-- `Machine::set_at_path`. -/
def Machine.set_at_path (m : Machine) (path : Path) (val : Int) :
    Except VmErr Machine :=
  match path with
  | .REG reg => m.set_reg_value reg val
  | .STK rel_idx =>
    match m.stack.set_at_idx rel_idx val with
    | .ok st => .ok { m with stack := st }
    | .error e => .error e

/-- Outcome of one loop iteration of `Machine::run`: continue with the new
state, or break out of the loop (the `HLT` arm). -/
inductive StepOut
  | cont (m : Machine)
  | halt (m : Machine)

/-- The machine carried by a `StepOut`. -/
def StepOut.machine : StepOut → Machine
  | .cont m => m
  | .halt m => m

/-- One arm of the `match` in `Machine::run`, applied to the post-fetch state
(`ip` already advanced by `get_next_inst`). Every `panic!` becomes a `VmErr`. -/
def Machine.execInst (m : Machine) : Inst → Except VmErr StepOut
  | .PSH v =>
    match m.stack.push v with
    | .ok st => .ok (.cont { m with stack := st })
    | .error e => .error e
  | .POP =>
    match m.stack.pop with
    | .ok p => .ok (.cont { m with stack := p.2 })
    | .error e => .error e
  | .ADD =>
    match m.stack.pop with
    | .error e => .error e
    | .ok (b, st1) =>
      match st1.pop with
      | .error e => .error e
      | .ok (a, st2) =>
        match i32chk (a + b) with
        | .error e => .error e
        | .ok r =>
          match st2.push r with
          | .ok st3 => .ok (.cont { m with stack := st3 })
          | .error e => .error e
  | .SUB =>
    match m.stack.pop with
    | .error e => .error e
    | .ok (b, st1) =>
      match st1.pop with
      | .error e => .error e
      | .ok (a, st2) =>
        match i32chk (a - b) with
        | .error e => .error e
        | .ok r =>
          match st2.push r with
          | .ok st3 => .ok (.cont { m with stack := st3 })
          | .error e => .error e
  | .MUL =>
    match m.stack.pop with
    | .error e => .error e
    | .ok (b, st1) =>
      match st1.pop with
      | .error e => .error e
      | .ok (a, st2) =>
        match i32chk (a * b) with
        | .error e => .error e
        | .ok r =>
          match st2.push r with
          | .ok st3 => .ok (.cont { m with stack := st3 })
          | .error e => .error e
  | .DIV =>
    match m.stack.pop with
    | .error e => .error e
    | .ok (b, st1) =>
      if b = 0 then .error .divideByZero
      else
        match st1.pop with
        | .error e => .error e
        | .ok (a, st2) =>
          match i32chk (Int.tdiv a b) with
          | .error e => .error e
          | .ok r =>
            match st2.push r with
            | .ok st3 => .ok (.cont { m with stack := st3 })
            | .error e => .error e
  | .SET reg v =>
    match m.set_reg_value reg v with
    | .ok m' => .ok (.cont m')
    | .error e => .error e
  | .CPY dst src =>
    match m.get_from_path src with
    | .error e => .error e
    | .ok v =>
      match m.set_at_path dst v with
      | .ok m' => .ok (.cont m')
      | .error e => .error e
  | .JMP offset =>
    if offset < 0 then
      if (m.ip : Int) < 1 - offset then .error .subOverflow
      else .ok (.cont { m with ip := m.ip - (1 - offset).toNat })
    else if 0 < offset then
      .ok (.cont { m with ip := m.ip + (offset.toNat - 1) })
    else .ok (.cont m)
  | .HLT => .ok (.halt m)

/-- One iteration of the loop in `Machine::run`: `get_next_inst` (fetch at
`ip`, then `ip += 1`) followed by the instruction dispatch; a fetch past the
end of the program is the `None` arm's illegal-instruction panic. -/
def Machine.step (m : Machine) : Except VmErr StepOut :=
  match m.program[m.ip]? with
  | none => .error .illegalInstruction
  | some inst => Machine.execInst { m with ip := m.ip + 1 } inst

/-- Result of running the loop with bounded fuel. -/
inductive RunResult
  | halted (m : Machine)
  | fatal (e : VmErr)
  | outOfFuel (m : Machine)

/-- `Machine::run`, fuel-bounded: iterate `step` until `HLT` breaks the loop
(graceful halt) or a fatal condition terminates the run. -/
def Machine.run : Machine → Nat → RunResult
  | m, 0 => .outOfFuel m
  | m, fuel + 1 =>
    match m.step with
    | .error e => .fatal e
    | .ok (.halt m') => .halted m'
    | .ok (.cont m') => m'.run fuel

/-- Machine states reachable from `Machine::new` (which asserts a non-empty
program) by executed loop iterations. -/
inductive Machine.Reachable : Machine → Prop
  | init (program : List Inst) (h : program ≠ []) :
      Machine.Reachable (Machine.new program)
  | next {m m' : Machine} :
      Machine.Reachable m → m.step = .ok (.cont m') → Machine.Reachable m'

/-- All six register keys are present (the `HashMap` key-set invariant). -/
def Machine.regsTotal (m : Machine) : Prop :=
  ∀ r : Reg, (m.registers r).isSome

example :
    (Machine.new [Inst.PSH 5, Inst.HLT]).step =
      .ok (.cont { Machine.new [Inst.PSH 5, Inst.HLT] with
                    ip := 1, stack := ⟨[5], 0⟩ }) := rfl
example : (Machine.new [Inst.POP]).step = .error (.stack .PopErr) := rfl
example :
    (Machine.new [Inst.HLT]).run 5 =
      .halted { Machine.new [Inst.HLT] with ip := 1 } := rfl

/-! ## Helper lemmas -/

theorem Stack.pop_concat (l : List Int) (x : Int) (sp : Int) :
    (Stack.mk (l ++ [x]) sp).pop = .ok (x, Stack.mk l (sp - 1)) := by
  unfold Stack.pop
  rw [dif_pos (by simp)]
  simp

theorem Stack.push_lt (s : Stack) (v : Int) (h : s.memory.length < STACK_SIZE) :
    s.push v = .ok ⟨s.memory ++ [v], s.sp + 1⟩ := by
  unfold Stack.push
  rw [if_pos h]

theorem Stack.pushAll_ok (vs : List Int) : ∀ s : Stack,
    s.memory.length + vs.length ≤ STACK_SIZE →
    s.pushAll vs = .ok ⟨s.memory ++ vs, s.sp + vs.length⟩ := by
  induction vs with
  | nil => intro s h; simp [Stack.pushAll]
  | cons v rest ih =>
    intro s h
    simp only [List.length_cons] at h
    unfold Stack.pushAll
    rw [Stack.push_lt s v (by omega)]
    refine (ih ⟨s.memory ++ [v], s.sp + 1⟩ (by simp; omega)).trans ?_
    simp [Stack.mk.injEq]
    omega

theorem Machine.step_fetch {m : Machine} {inst : Inst}
    (h : m.program[m.ip]? = some inst) :
    m.step = Machine.execInst { m with ip := m.ip + 1 } inst := by
  unfold Machine.step
  rw [h]

theorem Machine.execInst_jmp (p : List Inst) (i : Nat) (s : Stack)
    (r : Reg → Option Int) (off : Int) :
    (Machine.mk p i s r).execInst (.JMP off) =
      if off < 0 then
        if (i : Int) < 1 - off then .error .subOverflow
        else .ok (.cont (Machine.mk p (i - (1 - off).toNat) s r))
      else if 0 < off then
        .ok (.cont (Machine.mk p (i + (off.toNat - 1)) s r))
      else .ok (.cont (Machine.mk p i s r)) := rfl

theorem Machine.step_fetch_mk {p : List Inst} {i : Nat} {s : Stack}
    {r : Reg → Option Int} {inst : Inst} (h : p[i]? = some inst) :
    (Machine.mk p i s r).step = (Machine.mk p (i + 1) s r).execInst inst :=
  Machine.step_fetch (m := Machine.mk p i s r) h

theorem Machine.execInst_add (p : List Inst) (i : Nat) (s : Stack)
    (r : Reg → Option Int) :
    (Machine.mk p i s r).execInst .ADD =
      (match s.pop with
      | .error e => .error e
      | .ok (b, st1) =>
        match st1.pop with
        | .error e => .error e
        | .ok (a, st2) =>
          match i32chk (a + b) with
          | .error e => .error e
          | .ok x =>
            match st2.push x with
            | .ok st3 => .ok (.cont (Machine.mk p i st3 r))
            | .error e => .error e) := rfl

theorem Machine.execInst_sub (p : List Inst) (i : Nat) (s : Stack)
    (r : Reg → Option Int) :
    (Machine.mk p i s r).execInst .SUB =
      (match s.pop with
      | .error e => .error e
      | .ok (b, st1) =>
        match st1.pop with
        | .error e => .error e
        | .ok (a, st2) =>
          match i32chk (a - b) with
          | .error e => .error e
          | .ok x =>
            match st2.push x with
            | .ok st3 => .ok (.cont (Machine.mk p i st3 r))
            | .error e => .error e) := rfl

theorem Machine.execInst_mul (p : List Inst) (i : Nat) (s : Stack)
    (r : Reg → Option Int) :
    (Machine.mk p i s r).execInst .MUL =
      (match s.pop with
      | .error e => .error e
      | .ok (b, st1) =>
        match st1.pop with
        | .error e => .error e
        | .ok (a, st2) =>
          match i32chk (a * b) with
          | .error e => .error e
          | .ok x =>
            match st2.push x with
            | .ok st3 => .ok (.cont (Machine.mk p i st3 r))
            | .error e => .error e) := rfl

theorem Machine.execInst_div (p : List Inst) (i : Nat) (s : Stack)
    (r : Reg → Option Int) :
    (Machine.mk p i s r).execInst .DIV =
      (match s.pop with
      | .error e => .error e
      | .ok (b, st1) =>
        if b = 0 then .error .divideByZero
        else
          match st1.pop with
          | .error e => .error e
          | .ok (a, st2) =>
            match i32chk (Int.tdiv a b) with
            | .error e => .error e
            | .ok x =>
              match st2.push x with
              | .ok st3 => .ok (.cont (Machine.mk p i st3 r))
              | .error e => .error e) := rfl

theorem i32chk_ok {x : Int} (h : i32range x) : i32chk x = .ok x := by
  unfold i32chk
  rw [if_pos h]

/-! ## Claims -/

/-- C5: starting from an empty stack, 1024 consecutive pushes all succeed,
each incrementing the stack pointer; a push attempted when the length equals
the capacity 1024 fails with StackOverflow (`PushErr`); a pop attempted on an
empty stack fails with StackUnderflow (`PopErr`). -/
theorem spec_c5 :
    (∀ (s : Stack) (v : Int), s.memory.length < STACK_SIZE →
        s.push v = .ok ⟨s.memory ++ [v], s.sp + 1⟩) ∧
    (∀ vs : List Int, vs.length ≤ STACK_SIZE →
        Stack.new.pushAll vs = .ok ⟨vs, (vs.length : Int) - 1⟩) ∧
    (∀ (s : Stack) (v : Int), s.memory.length = STACK_SIZE →
        s.push v = .error (.stack .PushErr)) ∧
    (∀ s : Stack, s.memory = [] → s.pop = .error (.stack .PopErr)) := by
  refine ⟨Stack.push_lt, ?_, ?_, ?_⟩
  · intro vs h
    rw [Stack.pushAll_ok vs Stack.new (by simpa [Stack.new] using h)]
    simp [Stack.new, Stack.mk.injEq]
    omega
  · intro s v h
    unfold Stack.push
    rw [if_neg (by omega)]
  · intro s h
    unfold Stack.pop
    rw [dif_neg (by simp [h])]

/-- C5 witness: concrete instances of each conjunct. -/
theorem spec_c5_witness :
    (Stack.mk [4] 0).push 6 = .ok ⟨[4, 6], 1⟩ ∧
    Stack.new.pushAll [1, 2, 3] = .ok ⟨[1, 2, 3], 2⟩ ∧
    (Stack.mk (List.replicate 1024 0) 1023).push 7 = .error (.stack .PushErr) ∧
    Stack.new.pop = .error (.stack .PopErr) := by
  refine ⟨spec_c5.1 (Stack.mk [4] 0) 6 (by decide),
          ?_,
          spec_c5.2.2.1 (Stack.mk (List.replicate 1024 0) 1023) 7
            (show (List.replicate 1024 (0 : Int)).length = 1024 by
              rw [List.length_replicate]),
          spec_c5.2.2.2 Stack.new rfl⟩
  have h := spec_c5.2.1 [1, 2, 3] (by decide)
  simpa using h

/-- C6: every stack operation (push, pop, set_at) preserves the invariant that
the stack pointer equals length - 1 when the stack is non-empty and -1 when it
is empty; the initial stack satisfies it, and every successful operation
starting from a consistent stack yields a consistent stack. -/
theorem spec_c6 :
    Stack.new.inv ∧
    (∀ (s s' : Stack) (v : Int), s.inv → s.push v = .ok s' → s'.inv) ∧
    (∀ (s s' : Stack) (v : Int), s.inv → s.pop = .ok (v, s') → s'.inv) ∧
    (∀ (s s' : Stack) (i v : Int), s.inv → s.set_at_idx i v = .ok s' → s'.inv) := by
  refine ⟨by decide, ?_, ?_, ?_⟩
  · intro s s' v hinv h
    unfold Stack.push at h
    split at h
    · obtain ⟨h1, h2⟩ := hinv
      injection h with h
      subst h
      constructor <;> intro hm <;> simp_all
      by_cases hempty : s.memory = []
      · simp [hempty] at h1 ⊢
        omega
      · have := h2 hempty
        have : s.memory.length ≠ 0 := by simpa [List.length_eq_zero] using hempty
        omega
    · exact absurd h (by simp)
  · intro s s' v hinv h
    unfold Stack.pop at h
    split at h
    · obtain ⟨h1, h2⟩ := hinv
      rename_i hlen
      injection h with h
      injection h with hv hs
      subst hs
      have hne : s.memory ≠ [] := by
        intro hx
        simp [hx] at hlen
      have hsp := h2 hne
      constructor <;> intro hm
      · have hdrop : s.memory.dropLast.length = 0 := by
          have : s.memory.dropLast = [] := hm
          simp [this]
        rw [List.length_dropLast] at hdrop
        show s.sp - 1 = -1
        omega
      · have hdrop : s.memory.dropLast.length ≠ 0 := by
          intro h0
          exact hm (List.length_eq_zero.mp h0)
        show s.sp - 1 = (s.memory.dropLast.length : Int) - 1
        rw [List.length_dropLast] at hdrop ⊢
        omega
    · exact absurd h (by simp)
  · intro s s' i v hinv h
    unfold Stack.set_at_idx at h
    split at h
    · split at h
      · exact absurd h (by simp)
      · split at h
        · obtain ⟨h1, h2⟩ := hinv
          injection h with h
          subst h
          constructor <;> intro hm
          · have hlen0 : s.memory.length = 0 := by
              have : (s.memory.set (stkPhys s.sp i) v).length = 0 := by
                have : s.memory.set (stkPhys s.sp i) v = [] := hm
                simp [this]
              simpa using this
            show s.sp = -1
            exact h1 (by simpa [List.length_eq_zero] using hlen0)
          · have hne : s.memory ≠ [] := by
              intro hx
              refine hm ?_
              show s.memory.set (stkPhys s.sp i) v = []
              simp [hx]
            show s.sp = ((s.memory.set (stkPhys s.sp i) v).length : Int) - 1
            rw [List.length_set]
            exact h2 hne
        · exact absurd h (by simp)
    · exact absurd h (by simp)

/-- C6 witness: concrete instances of the preservation conjuncts. -/
theorem spec_c6_witness :
    (Stack.mk [1, 2] 1).inv ∧
    (Stack.mk [1] 0).inv ∧
    (Stack.mk [1, 9] 1).inv := by
  refine ⟨spec_c6.2.1 (Stack.mk [1] 0) _ 2 (by decide) (by decide),
          spec_c6.2.2.1 (Stack.mk [1, 2] 1) _ 2 (by decide) (by decide),
          spec_c6.2.2.2 (Stack.mk [1, 2] 1) _ 0 9 (by decide) (by decide)⟩

/-- C4 counterexample: on the one-element stack `[7]` (stack pointer 0) with
offset 1, the resolved physical index `sp - offset = -1` falls outside
`[0, length)`, yet `get_at_idx` does not fail with AddressError (`StackErr`):
the debug-profile `usize` subtraction `sp as usize - idx as usize` panics
instead. -/
theorem spec_c4_counterexample :
    (Stack.mk [7] 0).sp - 1 < 0 ∧
    (Stack.mk [7] 0).get_at_idx 1 ≠ .error (.path .StackErr) ∧
    (Stack.mk [7] 0).get_at_idx 1 = .error .subOverflow ∧
    (Stack.mk [7] 0).set_at_idx 1 9 = .error .subOverflow := by decide

/-- C4 (amended): for every consistent non-empty stack, `get_at(offset)`
returns the value at physical index `sp - offset` when `0 <= offset <= sp`;
when `offset > sp` the `usize` subtraction `sp - offset` underflows and the
call aborts with the debug-profile overflow panic (not AddressError); when
`offset < 0` the resolved physical index `sp + |offset|` falls at or beyond
the length, so the call fails with AddressError (`StackErr`); `set_at` resolves
the same way and overwrites in place on success; calling either on an empty
stack fails the entry assertion. -/
theorem spec_c4 (s : Stack) (hinv : s.inv) (off v : Int) :
    (s.memory = [] →
        s.get_at_idx off = .error .assertFailed ∧
        s.set_at_idx off v = .error .assertFailed) ∧
    (s.memory ≠ [] → 0 ≤ off → off ≤ s.sp →
        (∃ w, s.memory[s.sp.toNat - off.toNat]? = some w ∧
            s.get_at_idx off = .ok w) ∧
        s.set_at_idx off v =
          .ok ⟨s.memory.set (s.sp.toNat - off.toNat) v, s.sp⟩) ∧
    (s.memory ≠ [] → s.sp < off →
        s.get_at_idx off = .error .subOverflow ∧
        s.set_at_idx off v = .error .subOverflow) ∧
    (s.memory ≠ [] → off < 0 →
        s.get_at_idx off = .error (.path .StackErr) ∧
        s.set_at_idx off v = .error (.path .StackErr)) := by
  obtain ⟨h1, h2⟩ := hinv
  refine ⟨?_, ?_, ?_, ?_⟩
  · intro hm
    have hsp := h1 hm
    unfold Stack.get_at_idx Stack.set_at_idx
    rw [if_neg (by omega), if_neg (by omega)]
    exact ⟨rfl, rfl⟩
  · intro hm hoff hle
    have hsp := h2 hm
    have hlen : s.memory.length ≠ 0 := fun h0 => hm (List.length_eq_zero.mp h0)
    have hassert : 0 ≤ s.sp ∧ s.sp.toNat < s.memory.length := by
      constructor <;> omega
    have hnosub : ¬(0 ≤ off ∧ s.sp.toNat < off.toNat) := by
      intro ⟨_, hc⟩
      omega
    have hphys : stkPhys s.sp off = s.sp.toNat - off.toNat := by
      unfold stkPhys
      rw [if_pos hoff]
    have hidx : s.sp.toNat - off.toNat < s.memory.length := by omega
    constructor
    · refine ⟨s.memory.get ⟨s.sp.toNat - off.toNat, hidx⟩, List.getElem?_eq_getElem hidx, ?_⟩
      unfold Stack.get_at_idx
      rw [if_pos hassert, if_neg hnosub, hphys, List.getElem?_eq_getElem hidx]
      rfl
    · unfold Stack.set_at_idx
      rw [if_pos hassert, if_neg hnosub, hphys, if_pos hidx]
  · intro hm hlt
    have hsp := h2 hm
    have hlen : s.memory.length ≠ 0 := fun h0 => hm (List.length_eq_zero.mp h0)
    have hassert : 0 ≤ s.sp ∧ s.sp.toNat < s.memory.length := by
      constructor <;> omega
    have hsub : 0 ≤ off ∧ s.sp.toNat < off.toNat := by
      constructor <;> omega
    unfold Stack.get_at_idx Stack.set_at_idx
    rw [if_pos hassert, if_pos hassert, if_pos hsub, if_pos hsub]
    exact ⟨rfl, rfl⟩
  · intro hm hneg
    have hsp := h2 hm
    have hlen : s.memory.length ≠ 0 := fun h0 => hm (List.length_eq_zero.mp h0)
    have hassert : 0 ≤ s.sp ∧ s.sp.toNat < s.memory.length := by
      constructor <;> omega
    have hnosub : ¬(0 ≤ off ∧ s.sp.toNat < off.toNat) := by
      intro ⟨hc, _⟩
      omega
    have hphys : stkPhys s.sp off = s.sp.toNat + (-off).toNat := by
      unfold stkPhys
      rw [if_neg (by omega)]
    have hout : s.memory.length ≤ s.sp.toNat + (-off).toNat := by omega
    have hnone : s.memory[s.sp.toNat + (-off).toNat]? = none :=
      List.getElem?_eq_none hout
    unfold Stack.get_at_idx Stack.set_at_idx
    rw [if_pos hassert, if_pos hassert, if_neg hnosub, if_neg hnosub, hphys,
      hnone, if_neg (by omega)]
    exact ⟨rfl, rfl⟩

/-- C4 witness: concrete instances of the amended claim's conjuncts. -/
theorem spec_c4_witness :
    (Stack.mk [3, 4] 1).set_at_idx 0 9 = .ok ⟨[3, 9], 1⟩ ∧
    (Stack.mk [3, 4] 1).get_at_idx 1 = .ok 3 ∧
    (Stack.mk [3, 4] 1).get_at_idx (-1) = .error (.path .StackErr) ∧
    Stack.new.get_at_idx 0 = .error .assertFailed := by
  have h0 := spec_c4 (Stack.mk [3, 4] 1) (by decide) 0 9
  have h1 := spec_c4 (Stack.mk [3, 4] 1) (by decide) 1 9
  have hm1 := spec_c4 (Stack.mk [3, 4] 1) (by decide) (-1) 9
  have he := spec_c4 Stack.new (by decide) 0 0
  refine ⟨?_, ?_, (hm1.2.2.2 (by decide) (by decide)).1, (he.1 rfl).1⟩
  · have h := (h0.2.1 (by decide) (by decide) (by decide)).2
    exact h.trans rfl
  · obtain ⟨w, hw, hget⟩ := (h1.2.1 (by decide) (by decide) (by decide)).1
    have hw3 : w = 3 := by
      simp at hw
      omega
    rw [hw3] at hget
    exact hget

/-- C1: for an executed jump instruction at program position `p`, the next
instruction fetched is the one at position `p + offset` when `offset` is
non-zero (for a negative offset, provided the target position exists, i.e.
`p + offset >= 0`; the underflowing case is settled separately), and at
position `p + 1` when `offset = 0`. -/
theorem spec_c1 (m : Machine) (off : Int)
    (hfetch : m.program[m.ip]? = some (.JMP off)) :
    (off = 0 → m.step = .ok (.cont { m with ip := m.ip + 1 })) ∧
    (0 < off → m.step = .ok (.cont { m with ip := ((m.ip : Int) + off).toNat })) ∧
    (off < 0 → 0 ≤ (m.ip : Int) + off →
        m.step = .ok (.cont { m with ip := ((m.ip : Int) + off).toNat })) := by
  rw [Machine.step_fetch hfetch, Machine.execInst_jmp]
  refine ⟨?_, ?_, ?_⟩
  · intro h0
    subst h0
    rw [if_neg (by omega), if_neg (by omega)]
  · intro hpos
    rw [if_neg (by omega), if_pos hpos]
    have h : m.ip + 1 + (off.toNat - 1) = ((m.ip : Int) + off).toNat := by omega
    rw [h]
  · intro hneg hok
    rw [if_pos hneg, if_neg (show ¬((((m.ip + 1 : Nat)) : Int) < 1 - off) by push_cast; omega)]
    have h : m.ip + 1 - (1 - off).toNat = ((m.ip : Int) + off).toNat := by omega
    rw [h]

/-- C1 witness: a forward jump by 2 from position 0 fetches next from
position 2; a zero jump proceeds to position 1; a backward jump by -1 from
position 1 re-fetches position 0. -/
theorem spec_c1_witness :
    (Machine.new [Inst.JMP 2, Inst.HLT, Inst.HLT]).step =
      .ok (.cont { Machine.new [Inst.JMP 2, Inst.HLT, Inst.HLT] with ip := 2 }) ∧
    (Machine.new [Inst.JMP 0, Inst.HLT]).step =
      .ok (.cont { Machine.new [Inst.JMP 0, Inst.HLT] with ip := 1 }) ∧
    (Machine.mk [Inst.HLT, Inst.JMP (-1)] 1 Stack.new initRegisters).step =
      .ok (.cont (Machine.mk [Inst.HLT, Inst.JMP (-1)] 0 Stack.new initRegisters)) := by
  refine ⟨?_, ?_, ?_⟩
  · have h := (spec_c1 (Machine.new [Inst.JMP 2, Inst.HLT, Inst.HLT]) 2 rfl).2.1
      (by omega)
    exact h.trans rfl
  · exact (spec_c1 (Machine.new [Inst.JMP 0, Inst.HLT]) 0 rfl).1 rfl
  · have h := (spec_c1 (Machine.mk [Inst.HLT, Inst.JMP (-1)] 1 Stack.new
      initRegisters) (-1) rfl).2.2 (by decide) (by decide)
    exact h.trans rfl

/-- C10: an executed jump with negative offset `o` at position `p` performs
the unsigned subtraction of `1 - o` from the post-fetch pointer `p + 1`: when
`p + o >= 0` it cannot underflow and yields exactly `p + o`; when `p + o < 0`
it underflows and execution aborts with the debug-profile subtraction-overflow
panic, which is none of the spec's taxonomy errors. -/
theorem spec_c10 (m : Machine) (off : Int)
    (hfetch : m.program[m.ip]? = some (.JMP off)) (hneg : off < 0) :
    (0 ≤ (m.ip : Int) + off →
        m.step = .ok (.cont { m with ip := ((m.ip : Int) + off).toNat })) ∧
    ((m.ip : Int) + off < 0 →
        m.step = .error .subOverflow ∧
        VmErr.subOverflow.inSpecTaxonomy = false) := by
  rw [Machine.step_fetch hfetch, Machine.execInst_jmp]
  refine ⟨?_, ?_⟩
  · intro hok
    rw [if_pos hneg, if_neg (show ¬((((m.ip + 1 : Nat)) : Int) < 1 - off) by push_cast; omega)]
    have h : m.ip + 1 - (1 - off).toNat = ((m.ip : Int) + off).toNat := by omega
    rw [h]
  · intro hbad
    rw [if_pos hneg, if_pos (show ((((m.ip + 1 : Nat)) : Int) < 1 - off) by push_cast; omega)]
    exact ⟨rfl, rfl⟩

/-- C10 witness: a backward jump by -1 at position 1 lands on position 0; a
backward jump by -2 at position 0 underflows the pointer subtraction. -/
theorem spec_c10_witness :
    (Machine.mk [Inst.HLT, Inst.JMP (-1)] 1 Stack.new initRegisters).step =
      .ok (.cont (Machine.mk [Inst.HLT, Inst.JMP (-1)] 0 Stack.new initRegisters)) ∧
    (Machine.new [Inst.JMP (-2), Inst.HLT]).step = .error .subOverflow ∧
    VmErr.subOverflow.inSpecTaxonomy = false := by
  have h1 := (spec_c10 (Machine.mk [Inst.HLT, Inst.JMP (-1)] 1 Stack.new
    initRegisters) (-1) rfl (by decide)).1 (by decide)
  have h2 := (spec_c10 (Machine.new [Inst.JMP (-2), Inst.HLT]) (-2) rfl
    (by decide)).2 (by decide)
  exact ⟨h1.trans rfl, h2⟩

/-- C2: on a stack holding at least two values (`b` on top of `a`), each
binary arithmetic instruction pops `b` first, then `a`, computes `a op b`,
and pushes the single result: add pushes `a + b`, subtract pushes `a - b`,
multiply pushes `a * b`, divide pushes `a / b` (truncating division); the
first-popped value is the right-hand operand. (The `i32range` premises
reflect the debug-profile overflow panic and the non-zero divisor the division
premises.) -/
theorem spec_c2 (m : Machine) (rest : List Int) (a b : Int)
    (hstk : m.stack.memory = rest ++ [a, b])
    (hcap : m.stack.memory.length ≤ STACK_SIZE) :
    (m.program[m.ip]? = some .ADD → i32range (a + b) →
        m.step = .ok (.cont
          { m with
              ip := m.ip + 1
              stack := ⟨rest ++ [a + b], m.stack.sp - 1⟩ })) ∧
    (m.program[m.ip]? = some .SUB → i32range (a - b) →
        m.step = .ok (.cont
          { m with
              ip := m.ip + 1
              stack := ⟨rest ++ [a - b], m.stack.sp - 1⟩ })) ∧
    (m.program[m.ip]? = some .MUL → i32range (a * b) →
        m.step = .ok (.cont
          { m with
              ip := m.ip + 1
              stack := ⟨rest ++ [a * b], m.stack.sp - 1⟩ })) ∧
    (m.program[m.ip]? = some .DIV → b ≠ 0 → i32range (Int.tdiv a b) →
        m.step = .ok (.cont
          { m with
              ip := m.ip + 1
              stack := ⟨rest ++ [Int.tdiv a b], m.stack.sp - 1⟩ })) := by
  obtain ⟨p, i, ⟨mem, sp⟩, r⟩ := m
  dsimp only at hstk hcap ⊢
  subst hstk
  have hlen : rest.length < STACK_SIZE := by
    simp at hcap
    omega
  have hsplit : rest ++ [a, b] = (rest ++ [a]) ++ [b] := by simp
  refine ⟨?_, ?_, ?_, ?_⟩
  · intro hfetch hrange
    rw [Machine.step_fetch_mk hfetch, Machine.execInst_add, hsplit,
      Stack.pop_concat]
    dsimp only
    rw [Stack.pop_concat]
    dsimp only
    rw [i32chk_ok hrange]
    dsimp only
    rw [Stack.push_lt _ _ hlen]
    dsimp only
    rw [show sp - 1 - 1 + 1 = sp - 1 by omega]
  · intro hfetch hrange
    rw [Machine.step_fetch_mk hfetch, Machine.execInst_sub, hsplit,
      Stack.pop_concat]
    dsimp only
    rw [Stack.pop_concat]
    dsimp only
    rw [i32chk_ok hrange]
    dsimp only
    rw [Stack.push_lt _ _ hlen]
    dsimp only
    rw [show sp - 1 - 1 + 1 = sp - 1 by omega]
  · intro hfetch hrange
    rw [Machine.step_fetch_mk hfetch, Machine.execInst_mul, hsplit,
      Stack.pop_concat]
    dsimp only
    rw [Stack.pop_concat]
    dsimp only
    rw [i32chk_ok hrange]
    dsimp only
    rw [Stack.push_lt _ _ hlen]
    dsimp only
    rw [show sp - 1 - 1 + 1 = sp - 1 by omega]
  · intro hfetch hb hrange
    rw [Machine.step_fetch_mk hfetch, Machine.execInst_div, hsplit,
      Stack.pop_concat]
    dsimp only
    rw [if_neg hb, Stack.pop_concat]
    dsimp only
    rw [i32chk_ok hrange]
    dsimp only
    rw [Stack.push_lt _ _ hlen]
    dsimp only
    rw [show sp - 1 - 1 + 1 = sp - 1 by omega]

/-- C2 witness: `[5, 3]` (3 on top) with SUB steps to `[2]`; `[7, 2]` with DIV
steps to `[3]`; `[5, 6]` with ADD steps to `[11]`; `[4, 5]` with MUL steps to
`[20]`. -/
theorem spec_c2_witness :
    (Machine.mk [Inst.SUB] 0 (Stack.mk [5, 3] 1) initRegisters).step =
      .ok (.cont (Machine.mk [Inst.SUB] 1 (Stack.mk [2] 0) initRegisters)) ∧
    (Machine.mk [Inst.DIV] 0 (Stack.mk [7, 2] 1) initRegisters).step =
      .ok (.cont (Machine.mk [Inst.DIV] 1 (Stack.mk [3] 0) initRegisters)) ∧
    (Machine.mk [Inst.ADD] 0 (Stack.mk [5, 6] 1) initRegisters).step =
      .ok (.cont (Machine.mk [Inst.ADD] 1 (Stack.mk [11] 0) initRegisters)) ∧
    (Machine.mk [Inst.MUL] 0 (Stack.mk [4, 5] 1) initRegisters).step =
      .ok (.cont (Machine.mk [Inst.MUL] 1 (Stack.mk [20] 0) initRegisters)) := by
  have hsub := (spec_c2 (Machine.mk [Inst.SUB] 0 (Stack.mk [5, 3] 1)
    initRegisters) [] 5 3 rfl (by decide)).2.1 rfl (by decide)
  have hdiv := (spec_c2 (Machine.mk [Inst.DIV] 0 (Stack.mk [7, 2] 1)
    initRegisters) [] 7 2 rfl (by decide)).2.2.2 rfl (by decide) (by decide)
  have hadd := (spec_c2 (Machine.mk [Inst.ADD] 0 (Stack.mk [5, 6] 1)
    initRegisters) [] 5 6 rfl (by decide)).1 rfl (by decide)
  have hmul := (spec_c2 (Machine.mk [Inst.MUL] 0 (Stack.mk [4, 5] 1)
    initRegisters) [] 4 5 rfl (by decide)).2.2.1 rfl (by decide)
  exact ⟨hsub.trans rfl, hdiv.trans rfl, hadd.trans rfl, hmul.trans rfl⟩

/-- C3: whenever a divide instruction executes and the first-popped operand
(the divisor `b`) is zero, the machine fails fatally with the DivideByZero
condition before popping the second operand (the theorem holds for any `rest`
below the zero divisor, including the empty one, where a second pop would have
underflowed instead), and no result is pushed. -/
theorem spec_c3 (m : Machine) (rest : List Int)
    (hfetch : m.program[m.ip]? = some .DIV)
    (hstk : m.stack.memory = rest ++ [0]) :
    m.step = .error .divideByZero := by
  obtain ⟨p, i, ⟨mem, sp⟩, r⟩ := m
  dsimp only at hstk hfetch
  subst hstk
  rw [Machine.step_fetch_mk hfetch, Machine.execInst_div, Stack.pop_concat]
  dsimp only
  rw [if_pos rfl]

/-- C3 witness: DIV on the singleton stack `[0]` (so the second pop could not
even succeed) fails with DivideByZero, not with the pop-underflow error. -/
theorem spec_c3_witness :
    (Machine.mk [Inst.DIV] 0 (Stack.mk [0] 0) initRegisters).step =
      .error .divideByZero :=
  spec_c3 (Machine.mk [Inst.DIV] 0 (Stack.mk [0] 0) initRegisters) [] rfl rfl

theorem Machine.step_none {m : Machine} (h : m.program.length ≤ m.ip) :
    m.step = .error .illegalInstruction := by
  unfold Machine.step
  rw [List.getElem?_eq_none h]

theorem Machine.step_halt {m m' : Machine} (h : m.step = .ok (.halt m')) :
    m'.program[m'.ip - 1]? = some Inst.HLT := by
  unfold Machine.step at h
  split at h
  · exact absurd h (by simp)
  · rename_i inst hfetch
    cases inst <;> simp only [Machine.execInst] at h <;> repeat' split at h
    all_goals
      first
        | exact Except.noConfusion h
        | exact StepOut.noConfusion (Except.ok.inj h)
        | (injection h with h
           injection h with h
           subst h
           simpa using hfetch)

/-- C9: a run whose instruction pointer has advanced past the end of the
program without an executed halt terminates abnormally with the
IllegalInstruction condition, and a run can only return gracefully when the
instruction just executed (at the final pointer minus one) was `HLT` — it
never returns silently without having executed a halt. -/
theorem spec_c9 :
    (∀ (m : Machine) (fuel : Nat), m.program.length ≤ m.ip →
        m.run (fuel + 1) = .fatal .illegalInstruction) ∧
    (∀ (fuel : Nat) (m m' : Machine), m.run fuel = .halted m' →
        m'.program[m'.ip - 1]? = some Inst.HLT) := by
  constructor
  · intro m fuel h
    unfold Machine.run
    rw [Machine.step_none h]
  · intro fuel
    induction fuel with
    | zero =>
      intro m m' h
      exact absurd h (by unfold Machine.run; simp)
    | succ n ih =>
      intro m m' h
      unfold Machine.run at h
      split at h
      · exact absurd h (by simp)
      · rename_i hstep
        injection h with h
        subst h
        exact Machine.step_halt hstep
      · exact ih _ _ h

/-- C9 witness: a one-instruction program whose pointer is already past the
end fails with IllegalInstruction; a program ending in `HLT` that halted
indeed has `HLT` at the pre-advance pointer position. -/
theorem spec_c9_witness :
    (Machine.mk [Inst.PSH 1] 1 (Stack.mk [1] 0) initRegisters).run 1 =
      .fatal .illegalInstruction ∧
    ({ Machine.new [Inst.HLT] with ip := 1 } : Machine).program[1 - 1]? =
      some Inst.HLT := by
  constructor
  · exact spec_c9.1 (Machine.mk [Inst.PSH 1] 1 (Stack.mk [1] 0) initRegisters)
      0 (by decide)
  · exact spec_c9.2 1 (Machine.new [Inst.HLT])
      { Machine.new [Inst.HLT] with ip := 1 } rfl

theorem Machine.set_reg_value_regsTotal {m m' : Machine} {reg : Reg} {v : Int}
    (h : m.set_reg_value reg v = .ok m') (ht : m.regsTotal) : m'.regsTotal := by
  unfold Machine.set_reg_value at h
  split at h
  · injection h with h
    subst h
    intro r
    by_cases hr : r = reg
    · simp [hr]
    · simpa [hr] using ht r
  · exact Except.noConfusion h

theorem Machine.set_at_path_regsTotal {m m' : Machine} {p : Path} {v : Int}
    (h : m.set_at_path p v = .ok m') (ht : m.regsTotal) : m'.regsTotal := by
  cases p
  case REG reg => exact Machine.set_reg_value_regsTotal h ht
  case STK i =>
    simp only [Machine.set_at_path] at h
    split at h
    · injection h with h
      subst h
      exact ht
    · exact Except.noConfusion h

theorem Machine.execInst_regsTotal {m : Machine} {inst : Inst} {out : StepOut}
    (h : m.execInst inst = .ok out) (ht : m.regsTotal) :
    out.machine.regsTotal := by
  cases inst
  case SET reg v =>
    simp only [Machine.execInst] at h
    split at h
    · rename_i m1 heq
      injection h with h
      subst h
      exact Machine.set_reg_value_regsTotal heq ht
    · exact Except.noConfusion h
  case CPY dst src =>
    simp only [Machine.execInst] at h
    split at h
    · exact Except.noConfusion h
    · rename_i v heq
      split at h
      · rename_i m1 heq2
        injection h with h
        subst h
        exact Machine.set_at_path_regsTotal heq2 ht
      · exact Except.noConfusion h
  all_goals
    simp only [Machine.execInst] at h
    repeat' split at h
  all_goals
    first
      | exact Except.noConfusion h
      | (injection h with h
         subst h
         exact ht)

theorem Machine.step_regsTotal {m : Machine} {out : StepOut}
    (h : m.step = .ok out) (ht : m.regsTotal) : out.machine.regsTotal := by
  unfold Machine.step at h
  split at h
  · exact Except.noConfusion h
  · exact Machine.execInst_regsTotal h ht

theorem Machine.reachable_regsTotal {m : Machine} (h : m.Reachable) :
    m.regsTotal := by
  induction h with
  | init program hp => intro r; rfl
  | next hm hstep ih => exact Machine.step_regsTotal hstep ih

/-- C8: in every reachable machine state the register-file key set is the one
fixed at machine creation (all six registers present, initialized to 0), so
register get and set never take the `RegErr` error branch: get always returns
a value and set always overwrites. -/
theorem spec_c8 (m : Machine) (h : m.Reachable) :
    (∀ r : Reg, (m.registers r).isSome) ∧
    (∀ r : Reg, ∃ v : Int, m.get_reg_value r = .ok v) ∧
    (∀ (r : Reg) (v : Int), m.set_reg_value r v =
        .ok { m with
                registers := fun r' => if r' = r then some v else m.registers r' }) := by
  have ht := Machine.reachable_regsTotal h
  refine ⟨ht, ?_, ?_⟩
  · intro r
    have hr := ht r
    unfold Machine.get_reg_value
    match hx : m.registers r with
    | some v => exact ⟨v, rfl⟩
    | none => rw [hx] at hr; exact absurd hr (by simp)
  · intro r v
    unfold Machine.set_reg_value
    rw [if_pos (ht r)]

/-- C8 witness: the claim instantiated at the freshly created machine for the
program `[HLT]` and register A. -/
theorem spec_c8_witness :
    ((Machine.new [Inst.HLT]).registers Reg.A).isSome ∧
    (∃ v : Int, (Machine.new [Inst.HLT]).get_reg_value Reg.A = .ok v) ∧
    (Machine.new [Inst.HLT]).set_reg_value Reg.A 7 =
      .ok { Machine.new [Inst.HLT] with
              registers := fun r' =>
                if r' = Reg.A then some 7
                else (Machine.new [Inst.HLT]).registers r' } := by
  have h := spec_c8 (Machine.new [Inst.HLT])
    (Machine.Reachable.init [Inst.HLT] (by simp))
  exact ⟨h.1 Reg.A, h.2.1 Reg.A, h.2.2 Reg.A 7⟩

theorem Stack.set_at_idx_ok {s st : Stack} {idx val : Int}
    (h : s.set_at_idx idx val = .ok st) :
    (0 ≤ s.sp ∧ s.sp.toNat < s.memory.length) ∧
    ¬(0 ≤ idx ∧ s.sp.toNat < idx.toNat) ∧
    stkPhys s.sp idx < s.memory.length ∧
    st = { s with memory := s.memory.set (stkPhys s.sp idx) val } := by
  unfold Stack.set_at_idx at h
  split at h
  · split at h
    · exact Except.noConfusion h
    · split at h
      · rename_i h1 h2 h3
        injection h with h
        exact ⟨h1, h2, h3, h.symm⟩
      · exact Except.noConfusion h
  · exact Except.noConfusion h

theorem Stack.get_at_idx_ok {s : Stack} {idx v : Int}
    (h : s.get_at_idx idx = .ok v) :
    (0 ≤ s.sp ∧ s.sp.toNat < s.memory.length) ∧
    ¬(0 ≤ idx ∧ s.sp.toNat < idx.toNat) ∧
    s.memory[stkPhys s.sp idx]? = some v := by
  unfold Stack.get_at_idx at h
  split at h
  · split at h
    · exact Except.noConfusion h
    · rename_i h1 h2
      split at h
      · rename_i w hw
        injection h with h
        subst h
        exact ⟨h1, h2, hw⟩
      · exact Except.noConfusion h
  · exact Except.noConfusion h

theorem Stack.get_at_idx_eq_ok {s : Stack} {idx v : Int}
    (h1 : 0 ≤ s.sp ∧ s.sp.toNat < s.memory.length)
    (h2 : ¬(0 ≤ idx ∧ s.sp.toNat < idx.toNat))
    (h3 : s.memory[stkPhys s.sp idx]? = some v) :
    s.get_at_idx idx = .ok v := by
  unfold Stack.get_at_idx
  rw [if_pos h1, if_neg h2, h3]

/-- C7: when a copy instruction executes and both paths resolve successfully,
the destination afterwards holds the value read from the source, the source
still reads that same value, and everything else is untouched: program, the
advanced pointer, stack pointer and length, every register other than a
register destination, and every stack slot other than the destination's
resolved physical slot. -/
theorem spec_c7 (m m' : Machine) (dst src : Path) (v : Int)
    (hfetch : m.program[m.ip]? = some (.CPY dst src))
    (hstep : m.step = .ok (.cont m'))
    (hv : m.get_from_path src = .ok v) :
    m'.get_from_path dst = .ok v ∧
    m'.get_from_path src = .ok v ∧
    m'.program = m.program ∧
    m'.ip = m.ip + 1 ∧
    m'.stack.sp = m.stack.sp ∧
    m'.stack.memory.length = m.stack.memory.length ∧
    (∀ r : Reg, dst ≠ .REG r → m'.registers r = m.registers r) ∧
    (∀ k : Nat, (∀ i : Int, dst = .STK i → k ≠ stkPhys m.stack.sp i) →
        m'.stack.memory[k]? = m.stack.memory[k]?) := by
  rw [Machine.step_fetch hfetch] at hstep
  simp only [Machine.execInst] at hstep
  split at hstep
  · exact Except.noConfusion hstep
  · rename_i w hw
    have hw' : m.get_from_path src = .ok w := hw
    have hwv : w = v := Except.ok.inj (hw'.symm.trans hv)
    subst hwv
    split at hstep
    · rename_i m1 hset
      injection hstep with hstep
      injection hstep with hstep
      subst hstep
      cases dst
      case REG r0 =>
        simp only [Machine.set_at_path] at hset
        unfold Machine.set_reg_value at hset
        split at hset
        · injection hset with hset
          subst hset
          refine ⟨?_, ?_, rfl, rfl, rfl, rfl, ?_, fun k _ => rfl⟩
          · simp [Machine.get_from_path, Machine.get_reg_value]
          · cases src
            case REG r1 =>
              simp only [Machine.get_from_path, Machine.get_reg_value] at hv ⊢
              by_cases hr : r1 = r0
              · simp [hr]
              · simpa [hr] using hv
            case STK j => exact hv
          · intro r hne
            have hr : ¬(r = r0) := fun hr => hne (by rw [hr])
            simp [hr]
        · exact Except.noConfusion hset
      case STK i0 =>
        simp only [Machine.set_at_path] at hset
        split at hset
        · rename_i st hst
          have hst' : m.stack.set_at_idx i0 w = .ok st := hst
          obtain ⟨hassert, hnosub, hlt, hstdef⟩ := Stack.set_at_idx_ok hst'
          subst hstdef
          injection hset with hset
          subst hset
          refine ⟨?_, ?_, rfl, rfl, rfl, List.length_set .., fun r _ => rfl, ?_⟩
          · refine Stack.get_at_idx_eq_ok ?_ hnosub ?_
            · constructor
              · exact hassert.1
              · rw [List.length_set]
                exact hassert.2
            · exact List.getElem?_set_self hlt
          · cases src
            case REG r1 => exact hv
            case STK j =>
              obtain ⟨ha2, hn2, hg2⟩ := Stack.get_at_idx_ok hv
              refine Stack.get_at_idx_eq_ok ?_ hn2 ?_
              · constructor
                · exact ha2.1
                · rw [List.length_set]
                  exact ha2.2
              · by_cases hk : stkPhys m.stack.sp j = stkPhys m.stack.sp i0
                · rw [hk, List.getElem?_set_self hlt]
                · rw [List.getElem?_set_ne (fun he => hk he.symm)]
                  exact hg2
          · intro k hk
            have hkp : k ≠ stkPhys m.stack.sp i0 := hk i0 rfl
            exact List.getElem?_set_ne (fun he => hkp he.symm)
        · exact Except.noConfusion hset
    · exact Except.noConfusion hstep

/-- C7 witness: copying the top of stack `[5]` into register B leaves the
stack slot readable as 5, makes register B read as 5, and leaves register A
and the stack slot unchanged. -/
theorem spec_c7_witness :
    (Machine.mk [Inst.CPY (.REG .B) (.STK 0)] 1 (Stack.mk [5] 0)
        (fun r => if r = Reg.B then some 5 else initRegisters r)).get_from_path
      (.REG .B) = .ok 5 ∧
    (Machine.mk [Inst.CPY (.REG .B) (.STK 0)] 1 (Stack.mk [5] 0)
        (fun r => if r = Reg.B then some 5 else initRegisters r)).get_from_path
      (.STK 0) = .ok 5 ∧
    (Machine.mk [Inst.CPY (.REG .B) (.STK 0)] 1 (Stack.mk [5] 0)
        (fun r => if r = Reg.B then some 5 else initRegisters r)).registers
      Reg.A =
      (Machine.mk [Inst.CPY (.REG .B) (.STK 0)] 0 (Stack.mk [5] 0)
        initRegisters).registers Reg.A := by
  have h := spec_c7
    (Machine.mk [Inst.CPY (.REG .B) (.STK 0)] 0 (Stack.mk [5] 0) initRegisters)
    (Machine.mk [Inst.CPY (.REG .B) (.STK 0)] 1 (Stack.mk [5] 0)
      (fun r => if r = Reg.B then some 5 else initRegisters r))
    (.REG .B) (.STK 0) 5 rfl rfl rfl
  exact ⟨h.1, h.2.1, h.2.2.2.2.2.2.1 Reg.A (by simp)⟩

end Vyantra
